import Mathlib

/-!
Verification of the behavior-tree evaluator of `async-behavior-tree`
(`src/behavior_tree.rs`, `src/main.rs`).

The Rust core is a recursive enum `Behavior<A>` with variants
`Action`, `Invert`, `Select`, `Sequence` and `While`, a two-valued
`Response` (`Success` / `Running`), and one recursive evaluator
`run(&self, args, &mut state) -> Result<Response, Error>`.

Embedding choices:
* the mutable `&mut State` becomes explicit state passing: a leaf action
  is a total function `A → Args → St → St × Except E Response` (the state
  is always returned, also on error, matching `&mut` mutations surviving
  an `Err` return);
* `Self::ActionError::from(anyhow!(msg))` becomes an abstract
  `mkE : String → E` applied to the same message strings as the source;
* the `While` loop, the only source of possible divergence, is rendered
  with a fuel parameter: `BT.run` is structurally recursive on the fuel,
  every recursive call of the Rust evaluator consumes one unit, and
  `none` means the fuel ran out.  For any behavior without `While` a
  fuel of `fuelNeeded b` suffices (proved below), so `none` never arises
  from `While`-free trees given enough fuel.
-/

instance {ε α : Type} [DecidableEq ε] [DecidableEq α] : DecidableEq (Except ε α) := fun
  | .ok a, .ok b =>
    if h : a = b then isTrue (by rw [h]) else isFalse (by intro hc; injection hc; contradiction)
  | .ok _, .error _ => isFalse (by intro hc; cases hc)
  | .error _, .ok _ => isFalse (by intro hc; cases hc)
  | .error e, .error f =>
    if h : e = f then isTrue (by rw [h]) else isFalse (by intro hc; injection hc; contradiction)

namespace BT

/-- `Response` from `src/behavior_tree.rs`: `Success` / `Running`. -/
inductive Response : Type
  | Success : Response
  | Running : Response
deriving DecidableEq, Repr

/-- `Behavior<A>` from `src/behavior_tree.rs`: `Action(A)`,
`Invert(Box<Behavior<A>>)`, `Select(Vec<Behavior<A>>)`,
`Sequence(Vec<Behavior<A>>)`, `While { condition, action }`. -/
inductive Behavior (A : Type) : Type
  | Action : A → Behavior A
  | Invert : Behavior A → Behavior A
  | Select : List (Behavior A) → Behavior A
  | Sequence : List (Behavior A) → Behavior A
  | While : Behavior A → Behavior A → Behavior A
deriving Repr

variable {A Args St E : Type}

/-- The evaluator `<Behavior<A> as Actionable>::run` from
`src/behavior_tree.rs` lines 49-115, as a fuel-indexed state-passing
interpreter.  `leaf` is the leaf implementation `A::run`; `mkE` is
`Self::ActionError::from(anyhow!(...))`.  The `Select` / `Sequence`
cases unroll the source's `for` loops one child at a time; the `While`
case is one iteration of the source's `loop`. -/
def run (leaf : A → Args → St → St × Except E Response) (mkE : String → E) :
    Nat → Behavior A → Args → St → Option (St × Except E Response)
  | 0, _, _, _ => none
  | _ + 1, .Action a, args, s => some (leaf a args s)
  | fuel + 1, .Invert b, args, s =>
    match run leaf mkE fuel b args s with
    | none => none
    | some (s1, .ok .Success) => some (s1, .error (mkE "Inverted Ok"))
    | some (s1, .ok .Running) => some (s1, .ok .Running)
    | some (s1, .error _) => some (s1, .ok .Success)
  | _ + 1, .Select [], _, s => some (s, .error (mkE "No behavior successful"))
  | fuel + 1, .Select (b :: bs), args, s =>
    match run leaf mkE fuel b args s with
    | none => none
    | some (s1, .ok r) => some (s1, .ok r)
    | some (s1, .error _) => run leaf mkE fuel (.Select bs) args s1
  | _ + 1, .Sequence [], _, s => some (s, .ok .Success)
  | fuel + 1, .Sequence (b :: bs), args, s =>
    match run leaf mkE fuel b args s with
    | none => none
    | some (s1, .error _) => some (s1, .error (mkE "one behavior failed"))
    | some (s1, .ok _) => run leaf mkE fuel (.Sequence bs) args s1
  | fuel + 1, .While c a, args, s =>
    match run leaf mkE fuel c args s with
    | none => none
    | some (s1, .error _) => some (s1, .ok .Success)
    | some (s1, .ok _) =>
      match run leaf mkE fuel a args s1 with
      | none => none
      | some (s2, .error _) => some (s2, .error (mkE "action failed"))
      | some (s2, .ok _) => run leaf mkE fuel (.While c a) args s2

/-- `SelAllFail leaf mkE args fuel bs s s1` holds when, threading the
state left to right exactly as the `Select` loop of the evaluator does
(each child evaluated with one unit of fuel less than its `Select`
node), every child in `bs` evaluates to an `Err`, ending in state `s1`. -/
inductive SelAllFail (leaf : A → Args → St → St × Except E Response) (mkE : String → E)
    (args : Args) : Nat → List (Behavior A) → St → St → Prop
  | nil (fuel : Nat) (s : St) : SelAllFail leaf mkE args (fuel + 1) [] s s
  | cons {fuel : Nat} {b : Behavior A} {bs : List (Behavior A)} {s s1 s2 : St} {e : E} :
      run leaf mkE fuel b args s = some (s1, Except.error e) →
      SelAllFail leaf mkE args fuel bs s1 s2 →
      SelAllFail leaf mkE args (fuel + 1) (b :: bs) s s2

/-- `SeqAllOk leaf mkE args fuel bs s s1` holds when, threading the
state left to right exactly as the `Sequence` loop of the evaluator
does, every child in `bs` evaluates to an `Ok` (either `Response`),
ending in state `s1`. -/
inductive SeqAllOk (leaf : A → Args → St → St × Except E Response) (mkE : String → E)
    (args : Args) : Nat → List (Behavior A) → St → St → Prop
  | nil (fuel : Nat) (s : St) : SeqAllOk leaf mkE args (fuel + 1) [] s s
  | cons {fuel : Nat} {b : Behavior A} {bs : List (Behavior A)} {s s1 s2 : St} {r : Response} :
      run leaf mkE fuel b args s = some (s1, Except.ok r) →
      SeqAllOk leaf mkE args fuel bs s1 s2 →
      SeqAllOk leaf mkE args (fuel + 1) (b :: bs) s s2

/-- The behavior contains no `While` node. -/
inductive NoWhile : Behavior A → Prop
  | action (a : A) : NoWhile (.Action a)
  | invert {b : Behavior A} : NoWhile b → NoWhile (.Invert b)
  | selectNil : NoWhile (.Select [])
  | selectCons {b : Behavior A} {bs : List (Behavior A)} :
      NoWhile b → NoWhile (.Select bs) → NoWhile (.Select (b :: bs))
  | seqNil : NoWhile (.Sequence [])
  | seqCons {b : Behavior A} {bs : List (Behavior A)} :
      NoWhile b → NoWhile (.Sequence bs) → NoWhile (.Sequence (b :: bs))

/-- An explicit fuel bound under which the evaluation of a `While`-free
behavior cannot run out of fuel (the Rust evaluator, whose recursion on
such trees is structural, always terminates on them). -/
def fuelNeeded : Behavior A → Nat
  | .Action _ => 1
  | .Invert b => fuelNeeded b + 1
  | .Select [] => 1
  | .Select (b :: bs) => max (fuelNeeded b) (fuelNeeded (.Select bs)) + 1
  | .Sequence [] => 1
  | .Sequence (b :: bs) => max (fuelNeeded b) (fuelNeeded (.Sequence bs)) + 1
  | .While _ _ => 1

end BT

namespace Tests

/-- `MyAction` from the test module of `src/behavior_tree.rs`. -/
inductive MyAction : Type
  | Increase : MyAction
  | Decrease : MyAction
  | IsLowerThan5 : MyAction
deriving DecidableEq, Repr

/-- `MyAction::run` from the test module of `src/behavior_tree.rs`;
the state is the `i32` wrapped by `MyState`. -/
def MyAction.run : MyAction → Unit → Int → Int × Except String BT.Response
  | .Increase, _, s => (s + 1, .ok .Success)
  | .Decrease, _, s => (s - 1, .ok .Success)
  | .IsLowerThan5, _, s =>
    if s < 5 then (s, .ok .Success) else (s, .error ">= 5")

/-- Instrumented variant of `MyAction.run` whose state carries, next to
the `i32` value, a counter of how many times `Increase` has executed;
on the value component it behaves exactly as `MyAction.run`.  Used to
express "the body runs exactly n times" in the pure embedding. -/
def MyAction.runCounted : MyAction → Unit → Int × Nat → (Int × Nat) × Except String BT.Response
  | .Increase, _, (v, k) => ((v + 1, k + 1), .ok .Success)
  | .Decrease, _, (v, k) => ((v - 1, k), .ok .Success)
  | .IsLowerThan5, _, (v, k) =>
    if v < 5 then ((v, k), .ok .Success) else ((v, k), .error ">= 5")

end Tests

namespace Demo

/-- `MyAction` from `src/main.rs`. -/
inductive MyAction : Type
  | Fail : MyAction
  | Greet : MyAction
  | Wave : MyAction
  | Bow : MyAction
deriving DecidableEq, Repr

/-- `State` from `src/main.rs` (three `u32` counters). -/
structure State : Type where
  num_greets : Nat
  num_waves : Nat
  num_bows : Nat
deriving DecidableEq, Repr

/-- `MyAction::run` from `src/main.rs`. -/
def MyAction.run : MyAction → Unit → State → State × Except String BT.Response
  | .Greet, _, s => ({ s with num_greets := s.num_greets + 1 }, .ok .Success)
  | .Wave, _, s => ({ s with num_waves := s.num_waves + 1 }, .ok .Success)
  | .Bow, _, s => ({ s with num_bows := s.num_bows + 1 }, .ok .Success)
  | .Fail, _, s => (s, .error "Broken")

end Demo

open BT

/-- C1: evaluating `Select(children)` tries the children strictly in
order; the first child whose evaluation does not fail determines the
result (that child's `Ok` response is returned unchanged, and later
children — which do not occur in the conclusion at all — are never
evaluated); a failing child hands the (possibly mutated) state to the
remaining children; if every child fails, `Select` returns the generic
`"No behavior successful"` error, which does not depend on any child's
failure reason. -/
theorem select_semantics {A Args St E : Type}
    (leaf : A → Args → St → St × Except E Response) (mkE : String → E) (args : Args) :
    (∀ (fuel : Nat) (s : St),
      run leaf mkE (fuel + 1) (Behavior.Select ([] : List (Behavior A))) args s
        = some (s, Except.error (mkE "No behavior successful"))) ∧
    (∀ (fuel : Nat) (b : Behavior A) (bs : List (Behavior A)) (s s1 : St) (r : Response),
      run leaf mkE fuel b args s = some (s1, Except.ok r) →
      run leaf mkE (fuel + 1) (Behavior.Select (b :: bs)) args s = some (s1, Except.ok r)) ∧
    (∀ (fuel : Nat) (b : Behavior A) (bs : List (Behavior A)) (s s1 : St) (e : E),
      run leaf mkE fuel b args s = some (s1, Except.error e) →
      run leaf mkE (fuel + 1) (Behavior.Select (b :: bs)) args s
        = run leaf mkE fuel (Behavior.Select bs) args s1) ∧
    (∀ (fuel : Nat) (bs : List (Behavior A)) (s s1 : St),
      SelAllFail leaf mkE args fuel bs s s1 →
      run leaf mkE fuel (Behavior.Select bs) args s
        = some (s1, Except.error (mkE "No behavior successful"))) := by
  refine ⟨fun fuel s => by simp [run], ?_, ?_, ?_⟩
  · intro fuel b bs s s1 r h
    simp [run, h]
  · intro fuel b bs s s1 e h
    simp [run, h]
  · intro fuel bs s s1 h
    induction h with
    | nil fuel s => simp [run]
    | cons hb _ ih => simp [run, hb, ih]

/-- Witness for C1 on the `main.rs` actions: a succeeding first child
short-circuits, a failing first child hands over to the rest, and an
all-failing list produces the generic error. -/
theorem select_semantics_witness :
    (run Demo.MyAction.run id 2
        (Behavior.Select [Behavior.Action Demo.MyAction.Wave, Behavior.Action Demo.MyAction.Bow])
        () ⟨0, 0, 0⟩ = some (⟨0, 1, 0⟩, Except.ok Response.Success)) ∧
    (run Demo.MyAction.run id 2
        (Behavior.Select [Behavior.Action Demo.MyAction.Fail, Behavior.Action Demo.MyAction.Wave])
        () ⟨0, 0, 0⟩
      = run Demo.MyAction.run id 1 (Behavior.Select [Behavior.Action Demo.MyAction.Wave])
          () ⟨0, 0, 0⟩) ∧
    (run Demo.MyAction.run id 3
        (Behavior.Select [Behavior.Action Demo.MyAction.Fail, Behavior.Action Demo.MyAction.Fail])
        () ⟨0, 0, 0⟩ = some (⟨0, 0, 0⟩, Except.error "No behavior successful")) :=
  ⟨(select_semantics Demo.MyAction.run id ()).2.1 1 _ [Behavior.Action Demo.MyAction.Bow]
      _ _ Response.Success (by decide),
   (select_semantics Demo.MyAction.run id ()).2.2.1 1 _ [Behavior.Action Demo.MyAction.Wave]
      _ _ "Broken" (by decide),
   (select_semantics Demo.MyAction.run id ()).2.2.2 3 _ _ _
      (SelAllFail.cons
        (by decide : run Demo.MyAction.run id 2 (Behavior.Action Demo.MyAction.Fail) () ⟨0, 0, 0⟩
          = some (⟨0, 0, 0⟩, Except.error "Broken"))
        (SelAllFail.cons
          (by decide : run Demo.MyAction.run id 1 (Behavior.Action Demo.MyAction.Fail) () ⟨0, 0, 0⟩
            = some (⟨0, 0, 0⟩, Except.error "Broken"))
          (SelAllFail.nil 0 (⟨0, 0, 0⟩ : Demo.State))))⟩

/-- C8: evaluating `Select` with an empty children list always fails
with the generic `"No behavior successful"` error and leaves the state
unchanged (no leaf action runs). -/
theorem select_empty {A Args St E : Type}
    (leaf : A → Args → St → St × Except E Response) (mkE : String → E)
    (fuel : Nat) (args : Args) (s : St) :
    run leaf mkE (fuel + 1) (Behavior.Select ([] : List (Behavior A))) args s
      = some (s, Except.error (mkE "No behavior successful")) := by
  simp [run]

/-- C2: evaluating `Sequence(children)` runs the children strictly in
order; any non-failing child result — `Success` and `Running` alike —
makes evaluation continue with the next child from the child's output
state; the first failing child makes `Sequence` stop with the generic
`"one behavior failed"` error, which does not depend on the child's
original error; if every child succeeds, `Sequence` returns `Success`. -/
theorem sequence_semantics {A Args St E : Type}
    (leaf : A → Args → St → St × Except E Response) (mkE : String → E) (args : Args) :
    (∀ (fuel : Nat) (s : St),
      run leaf mkE (fuel + 1) (Behavior.Sequence ([] : List (Behavior A))) args s
        = some (s, Except.ok Response.Success)) ∧
    (∀ (fuel : Nat) (b : Behavior A) (bs : List (Behavior A)) (s s1 : St) (r : Response),
      run leaf mkE fuel b args s = some (s1, Except.ok r) →
      run leaf mkE (fuel + 1) (Behavior.Sequence (b :: bs)) args s
        = run leaf mkE fuel (Behavior.Sequence bs) args s1) ∧
    (∀ (fuel : Nat) (b : Behavior A) (bs : List (Behavior A)) (s s1 : St) (e : E),
      run leaf mkE fuel b args s = some (s1, Except.error e) →
      run leaf mkE (fuel + 1) (Behavior.Sequence (b :: bs)) args s
        = some (s1, Except.error (mkE "one behavior failed"))) ∧
    (∀ (fuel : Nat) (bs : List (Behavior A)) (s s1 : St),
      SeqAllOk leaf mkE args fuel bs s s1 →
      run leaf mkE fuel (Behavior.Sequence bs) args s
        = some (s1, Except.ok Response.Success)) := by
  refine ⟨fun fuel s => by simp [run], ?_, ?_, ?_⟩
  · intro fuel b bs s s1 r h
    simp [run, h]
  · intro fuel b bs s s1 e h
    simp [run, h]
  · intro fuel bs s s1 h
    induction h with
    | nil fuel s => simp [run]
    | cons hb _ ih => simp [run, hb, ih]

/-- Witness for C2 on the test actions: a succeeding child continues, a
failing child aborts with the generic error, and an all-succeeding list
returns `Success`. -/
theorem sequence_semantics_witness :
    (run Tests.MyAction.run id 2
        (Behavior.Sequence [Behavior.Action Tests.MyAction.Increase,
          Behavior.Action Tests.MyAction.Decrease]) () 0
      = run Tests.MyAction.run id 1
          (Behavior.Sequence [Behavior.Action Tests.MyAction.Decrease]) () 1) ∧
    (run Tests.MyAction.run id 2
        (Behavior.Sequence [Behavior.Action Tests.MyAction.IsLowerThan5,
          Behavior.Action Tests.MyAction.Increase]) () 7
      = some (7, Except.error "one behavior failed")) ∧
    (run Tests.MyAction.run id 3
        (Behavior.Sequence [Behavior.Action Tests.MyAction.Increase,
          Behavior.Action Tests.MyAction.Decrease]) () 0
      = some (0, Except.ok Response.Success)) :=
  ⟨(sequence_semantics Tests.MyAction.run id ()).2.1 1 _
      [Behavior.Action Tests.MyAction.Decrease] _ _ Response.Success (by decide),
   (sequence_semantics Tests.MyAction.run id ()).2.2.1 1 _
      [Behavior.Action Tests.MyAction.Increase] _ _ ">= 5" (by decide),
   (sequence_semantics Tests.MyAction.run id ()).2.2.2 3 _ _ _
      (SeqAllOk.cons
        (by decide : run Tests.MyAction.run id 2 (Behavior.Action Tests.MyAction.Increase) () 0
          = some (1, Except.ok Response.Success))
        (SeqAllOk.cons
          (by decide : run Tests.MyAction.run id 1 (Behavior.Action Tests.MyAction.Decrease) () 1
            = some (0, Except.ok Response.Success))
          (SeqAllOk.nil 0 (0 : Int))))⟩

/-- C9: evaluating `Sequence` with an empty children list returns
`Success` (never `Running`, never an error) and leaves the state
unchanged (no leaf action runs). -/
theorem sequence_empty {A Args St E : Type}
    (leaf : A → Args → St → St × Except E Response) (mkE : String → E)
    (fuel : Nat) (args : Args) (s : St) :
    run leaf mkE (fuel + 1) (Behavior.Sequence ([] : List (Behavior A))) args s
      = some (s, Except.ok Response.Success) := by
  simp [run]

/-- C3: one iteration of `While { condition, action }`: a failing
condition stops the loop with `Success` (the condition's error, present
only in the hypothesis, is not surfaced); a non-failing condition
(either `Response`) makes the body run; a non-failing body repeats the
loop from the body's output state; a failing body aborts with the
generic `"action failed"` error. -/
theorem while_semantics {A Args St E : Type}
    (leaf : A → Args → St → St × Except E Response) (mkE : String → E) (args : Args) :
    (∀ (fuel : Nat) (c a : Behavior A) (s s1 : St) (e : E),
      run leaf mkE fuel c args s = some (s1, Except.error e) →
      run leaf mkE (fuel + 1) (Behavior.While c a) args s
        = some (s1, Except.ok Response.Success)) ∧
    (∀ (fuel : Nat) (c a : Behavior A) (s s1 s2 : St) (r r2 : Response),
      run leaf mkE fuel c args s = some (s1, Except.ok r) →
      run leaf mkE fuel a args s1 = some (s2, Except.ok r2) →
      run leaf mkE (fuel + 1) (Behavior.While c a) args s
        = run leaf mkE fuel (Behavior.While c a) args s2) ∧
    (∀ (fuel : Nat) (c a : Behavior A) (s s1 s2 : St) (r : Response) (e : E),
      run leaf mkE fuel c args s = some (s1, Except.ok r) →
      run leaf mkE fuel a args s1 = some (s2, Except.error e) →
      run leaf mkE (fuel + 1) (Behavior.While c a) args s
        = some (s2, Except.error (mkE "action failed"))) := by
  refine ⟨?_, ?_, ?_⟩
  · intro fuel c a s s1 e hc
    simp [run, hc]
  · intro fuel c a s s1 s2 r r2 hc ha
    cases r <;> simp [run, hc, ha]
  · intro fuel c a s s1 s2 r e hc ha
    cases r <;> simp [run, hc, ha]

/-- Witness for C3 on the test actions: condition `IsLowerThan5` at
state `7` fails so the loop returns `Success`; at state `0` it holds so
the `Increase` body runs and the loop repeats from state `1`; a failing
body (`IsLowerThan5` again, at state `7`, guarded by a true `Increase`
condition) aborts with the generic error. -/
theorem while_semantics_witness :
    (run Tests.MyAction.run id 2
        (Behavior.While (Behavior.Action Tests.MyAction.IsLowerThan5)
          (Behavior.Action Tests.MyAction.Increase)) () 7
      = some (7, Except.ok Response.Success)) ∧
    (run Tests.MyAction.run id 2
        (Behavior.While (Behavior.Action Tests.MyAction.IsLowerThan5)
          (Behavior.Action Tests.MyAction.Increase)) () 0
      = run Tests.MyAction.run id 1
          (Behavior.While (Behavior.Action Tests.MyAction.IsLowerThan5)
            (Behavior.Action Tests.MyAction.Increase)) () 1) ∧
    (run Tests.MyAction.run id 2
        (Behavior.While (Behavior.Action Tests.MyAction.Increase)
          (Behavior.Action Tests.MyAction.IsLowerThan5)) () 7
      = some (8, Except.error "action failed")) :=
  ⟨(while_semantics Tests.MyAction.run id ()).1 1 _ _ _ _ ">= 5" (by decide),
   (while_semantics Tests.MyAction.run id ()).2.1 1 _ _ 0 0 1
      Response.Success Response.Success (by decide) (by decide),
   (while_semantics Tests.MyAction.run id ()).2.2 1 _ _ 7 8 8
      Response.Success ">= 5" (by decide) (by decide)⟩

/-- C4: evaluating `Invert(child)` returns `Success` when the child
fails (whatever its error); returns the generic synthetic
`"Inverted Ok"` error, not derived from the child, when the child
returns `Success`; and returns `Running` unchanged when the child
returns `Running`. -/
theorem invert_semantics {A Args St E : Type}
    (leaf : A → Args → St → St × Except E Response) (mkE : String → E) (args : Args) :
    (∀ (fuel : Nat) (b : Behavior A) (s s1 : St) (e : E),
      run leaf mkE fuel b args s = some (s1, Except.error e) →
      run leaf mkE (fuel + 1) (Behavior.Invert b) args s
        = some (s1, Except.ok Response.Success)) ∧
    (∀ (fuel : Nat) (b : Behavior A) (s s1 : St),
      run leaf mkE fuel b args s = some (s1, Except.ok Response.Success) →
      run leaf mkE (fuel + 1) (Behavior.Invert b) args s
        = some (s1, Except.error (mkE "Inverted Ok"))) ∧
    (∀ (fuel : Nat) (b : Behavior A) (s s1 : St),
      run leaf mkE fuel b args s = some (s1, Except.ok Response.Running) →
      run leaf mkE (fuel + 1) (Behavior.Invert b) args s
        = some (s1, Except.ok Response.Running)) := by
  refine ⟨?_, ?_, ?_⟩
  · intro fuel b s s1 e h
    simp [run, h]
  · intro fuel b s s1 h
    simp [run, h]
  · intro fuel b s s1 h
    simp [run, h]

/-- Witness for C4 on the test actions: a failing child (`IsLowerThan5`
at state `7`) inverts to `Success`, and a succeeding child (at state
`0`) inverts to the generic error.  (`Running` never arises from these
leaves; the third conjunct of C4 is exercised through C5's proof by
cases instead.) -/
theorem invert_semantics_witness :
    (run Tests.MyAction.run id 2
        (Behavior.Invert (Behavior.Action Tests.MyAction.IsLowerThan5)) () 7
      = some (7, Except.ok Response.Success)) ∧
    (run Tests.MyAction.run id 2
        (Behavior.Invert (Behavior.Action Tests.MyAction.IsLowerThan5)) () 0
      = some (0, Except.error "Inverted Ok")) :=
  ⟨(invert_semantics Tests.MyAction.run id ()).1 1 _ _ _ ">= 5" (by decide),
   (invert_semantics Tests.MyAction.run id ()).2.1 1 _ _ _ (by decide)⟩

/-- C5: double inversion preserves the three-way outcome
classification: `Invert(Invert(X))` (evaluated with the two extra fuel
units its two extra nodes consume) yields `Success` in exactly the
states where `X` yields `Success`, yields `Running` in exactly the
states where `X` yields `Running`, and fails in exactly the states
where `X` fails (through the synthesized-error path). -/
theorem invert_invert_outcome {A Args St E : Type}
    (leaf : A → Args → St → St × Except E Response) (mkE : String → E)
    (fuel : Nat) (x : Behavior A) (args : Args) (s : St) :
    (∀ s1 : St,
      run leaf mkE (fuel + 2) (Behavior.Invert (Behavior.Invert x)) args s
          = some (s1, Except.ok Response.Success)
        ↔ run leaf mkE fuel x args s = some (s1, Except.ok Response.Success)) ∧
    (∀ s1 : St,
      run leaf mkE (fuel + 2) (Behavior.Invert (Behavior.Invert x)) args s
          = some (s1, Except.ok Response.Running)
        ↔ run leaf mkE fuel x args s = some (s1, Except.ok Response.Running)) ∧
    (∀ s1 : St,
      (∃ e, run leaf mkE (fuel + 2) (Behavior.Invert (Behavior.Invert x)) args s
          = some (s1, Except.error e))
        ↔ (∃ e, run leaf mkE fuel x args s = some (s1, Except.error e))) := by
  rcases h : run leaf mkE fuel x args s with _ | ⟨s2, r2⟩
  · simp [run, h]
  · rcases r2 with e | r2
    · simp [run, h]
    · rcases r2 <;> simp [run, h]

/-- C6: scenario B of `main.rs`: `Sequence([Wave, Greet, Fail, Bow])`
on a fresh zeroed counter state fails (with the generic sequencing
error), the wave and greet counters applied before the failing step
persist at 1, and the bow counter stays 0 because `Bow` is never
reached. -/
theorem sequence_scenarioB :
    run Demo.MyAction.run id 5
      (Behavior.Sequence [Behavior.Action Demo.MyAction.Wave,
        Behavior.Action Demo.MyAction.Greet, Behavior.Action Demo.MyAction.Fail,
        Behavior.Action Demo.MyAction.Bow]) () ⟨0, 0, 0⟩
      = some (⟨1, 1, 0⟩, Except.error "one behavior failed") := by
  decide

/-- C7: `While { condition: IsLowerThan5, body: Increase }` starting at
value `0` terminates (fuel `10` suffices) with final value `5` and
result `Success`; running the same tree with the instrumented leaf that
counts `Increase` executions shows the body runs exactly 5 times. -/
theorem while_counts_to_five :
    (run Tests.MyAction.run id 10
        (Behavior.While (Behavior.Action Tests.MyAction.IsLowerThan5)
          (Behavior.Action Tests.MyAction.Increase)) () 0
      = some (5, Except.ok Response.Success)) ∧
    (run Tests.MyAction.runCounted id 10
        (Behavior.While (Behavior.Action Tests.MyAction.IsLowerThan5)
          (Behavior.Action Tests.MyAction.Increase)) () ((0 : Int), (0 : Nat))
      = some ((5, 5), Except.ok Response.Success)) := by
  exact ⟨by decide, by decide⟩

/-- Every behavior needs at least one unit of fuel. -/
theorem fuelNeeded_pos {A : Type} (b : Behavior A) : 0 < fuelNeeded b := by
  cases b with
  | Action a => simp [fuelNeeded]
  | Invert c => simp [fuelNeeded]
  | Select bs => cases bs <;> simp [fuelNeeded]
  | Sequence bs => cases bs <;> simp [fuelNeeded]
  | While c a => simp [fuelNeeded]

/-- C10: on any behavior containing no `While` node the evaluator
terminates — leaf actions being total functions here, evaluation with
any fuel of at least `fuelNeeded b` (a bound depending only on the
tree) never runs out, for every args and state; only the `While` loop
can consume unbounded fuel. -/
theorem run_total_of_noWhile {A Args St E : Type}
    (leaf : A → Args → St → St × Except E Response) (mkE : String → E) :
    ∀ (fuel : Nat) (b : Behavior A), NoWhile b → fuelNeeded b ≤ fuel →
      ∀ (args : Args) (s : St), ∃ r, run leaf mkE fuel b args s = some r := by
  intro fuel
  induction fuel with
  | zero =>
    intro b _ hf args s
    exact absurd hf (by have := fuelNeeded_pos (A := A) b; omega)
  | succ g ih =>
    intro b hnw hf args s
    cases b with
    | Action a => exact ⟨leaf a args s, by simp [run]⟩
    | Invert c =>
      have hc : NoWhile c := by cases hnw; assumption
      have hfc : fuelNeeded c ≤ g := by
        simp [fuelNeeded] at hf
        omega
      obtain ⟨⟨s1, res⟩, hr⟩ := ih c hc hfc args s
      rcases res with e | r
      · exact ⟨(s1, Except.ok Response.Success), by simp [run, hr]⟩
      · rcases r with _ | _
        · exact ⟨(s1, Except.error (mkE "Inverted Ok")), by simp [run, hr]⟩
        · exact ⟨(s1, Except.ok Response.Running), by simp [run, hr]⟩
    | Select bs =>
      cases bs with
      | nil => exact ⟨(s, Except.error (mkE "No behavior successful")), by simp [run]⟩
      | cons c cs =>
        have hc : NoWhile c := by cases hnw; assumption
        have hcs : NoWhile (Behavior.Select cs) := by cases hnw; assumption
        have hfc : fuelNeeded c ≤ g := by
          simp [fuelNeeded] at hf
          omega
        have hfcs : fuelNeeded (Behavior.Select cs) ≤ g := by
          simp [fuelNeeded] at hf
          omega
        obtain ⟨⟨s1, res⟩, hr⟩ := ih c hc hfc args s
        rcases res with e | r
        · obtain ⟨r2, hr2⟩ := ih (Behavior.Select cs) hcs hfcs args s1
          exact ⟨r2, by simp [run, hr, hr2]⟩
        · exact ⟨(s1, Except.ok r), by simp [run, hr]⟩
    | Sequence bs =>
      cases bs with
      | nil => exact ⟨(s, Except.ok Response.Success), by simp [run]⟩
      | cons c cs =>
        have hc : NoWhile c := by cases hnw; assumption
        have hcs : NoWhile (Behavior.Sequence cs) := by cases hnw; assumption
        have hfc : fuelNeeded c ≤ g := by
          simp [fuelNeeded] at hf
          omega
        have hfcs : fuelNeeded (Behavior.Sequence cs) ≤ g := by
          simp [fuelNeeded] at hf
          omega
        obtain ⟨⟨s1, res⟩, hr⟩ := ih c hc hfc args s
        rcases res with e | r
        · exact ⟨(s1, Except.error (mkE "one behavior failed")), by simp [run, hr]⟩
        · obtain ⟨r2, hr2⟩ := ih (Behavior.Sequence cs) hcs hfcs args s1
          exact ⟨r2, by simp [run, hr, hr2]⟩
    | While c a => cases hnw

/-- Witness for C10: a concrete `While`-free tree over the `main.rs`
actions evaluates to a result with fuel 5. -/
theorem run_total_of_noWhile_witness :
    ∃ r, run Demo.MyAction.run id 5
      (Behavior.Select [Behavior.Action Demo.MyAction.Fail,
        Behavior.Action Demo.MyAction.Wave]) () ⟨0, 0, 0⟩ = some r :=
  run_total_of_noWhile Demo.MyAction.run id 5 _
    (NoWhile.selectCons (NoWhile.action _)
      (NoWhile.selectCons (NoWhile.action _) NoWhile.selectNil))
    (by simp [fuelNeeded]) () ⟨0, 0, 0⟩
